import Mathlib

/-!
# go-wolf router: a shallow embedding for specification checking

This file embeds, in Lean 4, the parts of the `aliwert/go-wolf` HTTP
router that the specification talks about:

* the wrapped response writer (`pkg/response/writer.go`),
* the middleware chain construction (`router.Handle` / `MiddlewareChain.Build`),
* the dispatch loop `Router.ServeHTTP` (`router/router.go`),
* route groups (`Group.Group` / `Group.handle`),
* the route utilities `MatchPath`, `ExtractParams`, `NormalizePath`
  (`RouteUtils`).

Go strings are modelled as Lean `String` where only equality, prefix
tests and concatenation matter, and as `List Char` where the code walks
or rewrites the bytes (the route utilities); Go's `nil`-able values
become `Option`; a Go `panic` at registration time becomes `Except.error`.
The radix-tree internals (`node.addRoute` / `node.getValue`) sit in a file
that is outside the excerpt at hand, so the per-method tree is abstracted
by its lookup function where dispatch is concerned, and registration is
modelled as recording the insertion.
-/

namespace GoWolf

/-! ## Response writer (`pkg/response/writer.go`)

`Writer` wraps an underlying `http.ResponseWriter`.  The model records
what is forwarded to the underlying writer as a list of `WireEvent`s,
alongside the wrapper's own fields `statusCode`, `written` and `size`.
-/

/-- An event forwarded to the underlying `http.ResponseWriter`:
either a `WriteHeader(code)` call or a body `Write(data)` call. -/
inductive WireEvent where
  | header (code : Nat)
  | data (s : String)
deriving DecidableEq, Repr

/-- The `response.Writer` wrapper state: the captured `statusCode`,
the `written` flag, the accumulated `size`, and the events forwarded to
the wrapped `http.ResponseWriter` (the mutex only serializes access and
has no sequential effect, so it is not modelled). -/
structure Writer where
  statusCode : Nat
  written : Bool
  size : Nat
  sent : List WireEvent
deriving DecidableEq, Repr

/-- Go `NewWriter`: default status code 200, nothing written. -/
def newWriter : Writer := ⟨200, false, 0, []⟩

/-- Go `Writer.WriteHeader(code)`: if `written` is set the call returns at
once; otherwise it records `code` in `statusCode` and forwards
`WriteHeader(code)` to the underlying writer.  (Note: this function does
not itself set `written`; only `Write` does.) -/
def writeHeader (w : Writer) (code : Nat) : Writer :=
  if w.written then w
  else { w with statusCode := code, sent := w.sent ++ [.header code] }

/-- Go `Writer.Write(data)`: if `written` is not yet set, first forward
`WriteHeader(statusCode)` to the underlying writer and set `written`;
then forward the data, add the byte count to `size`, and return the
count (the modelled underlying writer always succeeds, as
`httptest.NewRecorder` does, so the returned error is `none`). -/
def write (w : Writer) (data : String) : Writer × Nat × Option String :=
  let w :=
    if !w.written then
      { w with sent := w.sent ++ [.header w.statusCode], written := true }
    else w
  let n := data.length
  ({ w with sent := w.sent ++ [.data data], size := w.size + n }, n, none)

/-- Go `Writer.Status()`. -/
def status (w : Writer) : Nat := w.statusCode

/-- Go `Writer.Size()`. -/
def size (w : Writer) : Nat := w.size

/-- The body writes among the events forwarded to the underlying writer. -/
def dataWrites (w : Writer) : List String :=
  w.sent.filterMap fun e => match e with
    | .data s => some s
    | .header _ => none

/-! ## Middleware composition (`Router.Handle` loop, `MiddlewareChain.Build`)

A Go middleware is a `HandlerFunc` that may do work, call `ctx.Next()`
at most once (the spec mandates at-most-one `next()` per invocation),
and do further work after `next` returns.  The runtime hand-off
`c.SetNext(next); return mw(c)` is modelled by handing the `next`
continuation to the stage directly; a stage is abstracted by its
pre-`next` work, whether it calls `next`, and its post-`next` work,
over an arbitrary context-state type `α`. -/

/-- One middleware stage: `pre` is the work done before `ctx.next()`,
`callsNext` whether the stage invokes `ctx.next()`, `post` the work done
after `next` returns (or directly after `pre` when `next` is skipped). -/
structure Mw (α : Type) where
  pre : α → α
  callsNext : Bool
  post : α → α

/-- Running one stage with continuation `next`: this is the composed
closure `fun c => c.SetNext(next); return mw(c)` together with the
stage's own behaviour. -/
def runMw {α : Type} (m : Mw α) (next : α → α) : α → α :=
  fun c =>
    let c1 := m.pre c
    let c2 := if m.callsNext then next c1 else c1
    m.post c2

/-- Go `MiddlewareChain.Build(handler)` and the identical loop in
`Router.Handle`: `result := handler`; then for `i = n-1 .. 0`,
`result := wrap(middleware[i], result)` — a right fold. -/
def build {α : Type} : List (Mw α) → (α → α) → (α → α)
  | [], h => h
  | m :: rest, h => runMw m (build rest h)

/-- All the pre-`next` work of a list of stages, first stage first. -/
def presComp {α : Type} (mws : List (Mw α)) (c : α) : α :=
  mws.foldl (fun acc m => m.pre acc) c

/-- All the post-`next` work of a list of stages, last stage first. -/
def postsComp {α : Type} : List (Mw α) → α → α
  | [], c => c
  | m :: rest, c => m.post (postsComp rest c)

/-! ## Dispatch (`Router.ServeHTTP`, `router/router.go`)

The per-request context carries the captured parameters and the wrapped
writer.  A handler mutates the context and may return an error (Go
`error` modelled as `Option String`).  The radix tree for a method is
abstracted by its `getValue` lookup function, returning the optional
handler and the optional parameter list (the advisory trailing-slash
flag returned by `getValue` is discarded by `ServeHTTP` and not
modelled). -/

/-- The per-request context: captured route parameters and the wrapped
response writer. -/
structure Ctx where
  params : List (String × String)
  writer : Writer

/-- Go `context.HandlerFunc`: mutates the context, may return an error. -/
def HandlerFun : Type := Ctx → Ctx × Option String

/-- A per-method radix tree, abstracted by its `getValue` function:
`path ↦ (handler or nil, params or nil)`. -/
def TreeFn : Type := String → Option HandlerFun × Option (List (String × String))

/-- The router state relevant to dispatch: the per-method trees and the
two customization hooks. -/
structure RouterDisp where
  trees : List (String × TreeFn)
  notFoundHandler : Option HandlerFun
  methodNotAllowedHandler : Option HandlerFun

/-- Go `r.trees[method]`: association-list reading of the Go map. -/
def treesFind (trees : List (String × TreeFn)) (method : String) : Option TreeFn :=
  (trees.find? fun e => e.1 == method).map Prod.snd

/-- Go `c.SetParams(params)`. -/
def setParams (c : Ctx) (ps : List (String × String)) : Ctx :=
  { c with params := ps }

/-- Go `SetNotFoundHandler` (`router/advanced.go`). -/
def setNotFoundHandler (r : RouterDisp) (h : HandlerFun) : RouterDisp :=
  { r with notFoundHandler := some h }

/-- Go `SetMethodNotAllowedHandler` (`router/advanced.go`). -/
def setMethodNotAllowedHandler (r : RouterDisp) (h : HandlerFun) : RouterDisp :=
  { r with methodNotAllowedHandler := some h }

/-- The 405 write in `ServeHTTP`:
`c.Writer.WriteHeader(405); c.Writer.Write([]byte("Method Not Allowed"))`. -/
def write405 (c : Ctx) : Ctx :=
  { c with writer := (write (writeHeader c.writer 405) "Method Not Allowed").1 }

/-- The 404 write in `ServeHTTP`:
`c.Writer.WriteHeader(404); c.Writer.Write([]byte("Not Found"))`. -/
def write404 (c : Ctx) : Ctx :=
  { c with writer := (write (writeHeader c.writer 404) "Not Found").1 }

/-- The fall-through of `ServeHTTP` once the request's own method found
no handler: scan every other method's tree with the same path; on any
hit write 405, otherwise write 404. -/
def serveMiss (r : RouterDisp) (method path : String) (c : Ctx) : Ctx :=
  if r.trees.any (fun e => e.1 != method && ((e.2) path).1.isSome)
  then write405 c
  else write404 c

/-- The handler-invocation arm of `ServeHTTP`: bind params when present
(`if params != nil`), invoke the handler, and on error consult the
context's error handler (passed here as the separate argument `errH`,
standing for `c.GetErrorHandler()`). -/
def serveFound (handle : HandlerFun)
    (params : Option (List (String × String)))
    (errH : Option (Ctx → String → Ctx)) (c : Ctx) : Ctx :=
  let c :=
    match params with
    | some ps => setParams c ps
    | none => c
  let res := handle c
  match res.2, errH with
  | some e, some eh => eh res.1 e
  | _, _ => res.1

/-- Go `Router.ServeHTTP`: look up the method's tree; if it yields a
handler, run `serveFound`; otherwise fall through to `serveMiss`. -/
def serveHTTP (r : RouterDisp) (method path : String)
    (errH : Option (Ctx → String → Ctx)) (c : Ctx) : Ctx :=
  match treesFind r.trees method with
  | some root =>
    match (root path).1 with
    | some handle => serveFound handle (root path).2 errH c
    | none => serveMiss r method path c
  | none => serveMiss r method path c

/-! ## Registration (`Router.Handle`, `Group`)

`Router.Handle` checks the three registration-time panics, folds the
middleware around the handler exactly as `build` does, and inserts the
result into the per-method tree with `addRoute` (whose internals are in
the tree file, outside this excerpt).  The registration model records
the insertion — method, path, handler and middleware list — and turns
each panic into an `Except.error`. -/

/-- The three registration-time panics of `Router.Handle`. -/
inductive RegError where
  | emptyMethod
  | badPath
  | nilHandler
deriving DecidableEq, Repr

/-- The router state relevant to registration: the recorded insertions
`(method, path, handler, middleware)`. -/
structure RouterReg where
  routes : List (String × String × HandlerFun × List HandlerFun)

/-- Go `Router.Handle(method, path, handler, middleware...)`: panic when
the method is empty, when `len(path) < 1 || path[0] != '/'`, or when the
handler is nil; otherwise record the insertion into the per-method
tree. -/
def handle (r : RouterReg) (method path : String)
    (handler : Option HandlerFun) (middleware : List HandlerFun) :
    Except RegError RouterReg :=
  if method = "" then .error .emptyMethod
  else if path.length < 1 ∨ path.data.head? ≠ some '/' then .error .badPath
  else
    match handler with
    | none => .error .nilHandler
    | some h => .ok { routes := r.routes ++ [(method, path, h, middleware)] }

/-- A route group: back-reference to the router, accumulated path
prefix (Go field `prefix`, renamed here), and accumulated middleware. -/
structure Group where
  router : RouterReg
  pfx : String
  middleware : List HandlerFun

/-- Go `Router.Group(prefix, middleware...)`. -/
def routerGroup (r : RouterReg) (pfx : String)
    (middleware : List HandlerFun) : Group :=
  { router := r, pfx := pfx, middleware := middleware }

/-- Go `Group.Group(prefix, middleware...)`: child group with concatenated
prefix and concatenated middleware, same router. -/
def groupGroup (g : Group) (pfx : String)
    (middleware : List HandlerFun) : Group :=
  { router := g.router, pfx := g.pfx ++ pfx,
    middleware := g.middleware ++ middleware }

/-- Go `Group.handle(method, path, handler, middleware...)`:
`allMiddleware := append(g.middleware, middleware...)`,
`fullPath := g.prefix + path`, then forward to `Router.Handle`. -/
def groupHandle (g : Group) (method path : String)
    (handler : Option HandlerFun) (middleware : List HandlerFun) :
    Except RegError RouterReg :=
  handle g.router method (g.pfx ++ path) handler (g.middleware ++ middleware)

/-! ## Route utilities (`RouteUtils`, the router utility file)

`MatchPath`, `ExtractParams` and `NormalizePath` work character by
character on Go strings; they are modelled here over `List Char`, with
the Go standard-library string operations they use (`strings.Split`,
`strings.Join`, `strings.HasPrefix`/`HasSuffix` for one-character
affixes, `strings.TrimSuffix`, `strings.Contains`/`ReplaceAll` for
`"//"`) spelled out as list functions. -/

/-- A Go string as its character list. -/
def goStr (s : String) : List Char := s.data

/-- Go `strings.Split(s, sep)` for a one-character separator. -/
def goSplit (sep : Char) : List Char → List (List Char)
  | [] => [[]]
  | c :: rest =>
    if c = sep then [] :: goSplit sep rest
    else
      match goSplit sep rest with
      | [] => [[c]]
      | seg :: segs => (c :: seg) :: segs

/-- Go `strings.Join(parts, sep)` for a one-character separator. -/
def goJoin (sep : Char) : List (List Char) → List Char
  | [] => []
  | [s] => s
  | s :: rest => s ++ sep :: goJoin sep rest

/-- Go `strings.HasPrefix(s, c)` for a one-character affix. -/
def startsWith (c : Char) : List Char → Bool
  | [] => false
  | d :: _ => d = c

/-- Go `strings.HasSuffix(s, c)` for a one-character affix. -/
def endsWith (c : Char) (s : List Char) : Bool :=
  match s.getLast? with
  | some d => d = c
  | none => false

/-- Go `strings.TrimSuffix(s, c)` for a one-character suffix: remove one
trailing occurrence. -/
def trimSuffixChar (c : Char) (s : List Char) : List Char :=
  if endsWith c s then s.dropLast else s

/-- Go `strings.Contains(s, "//")`: some adjacent character pair is
`'/','/'`. -/
def containsDS : List Char → Bool
  | [] => false
  | [_] => false
  | a :: b :: rest => (a = '/' && b = '/') || containsDS (b :: rest)

/-- Go `strings.ReplaceAll(s, "//", "/")`: left-to-right, non-overlapping
replacement of each `"//"` by `"/"`. -/
def replaceDS : List Char → List Char
  | [] => []
  | [c] => [c]
  | a :: b :: rest =>
    if a = '/' && b = '/' then '/' :: replaceDS rest
    else a :: replaceDS (b :: rest)

/-- The `for strings.Contains(path, "//")` loop of `NormalizePath`,
with an explicit iteration bound.  Each iteration with a `"//"` present
strictly shortens the string (`replaceDS_length_lt` below), so
`s.length` iterations always reach the loop's exit condition; the
fuelled function therefore computes exactly what the Go loop does. -/
def collapseFuel : Nat → List Char → List Char
  | 0, s => s
  | n + 1, s => if containsDS s then collapseFuel n (replaceDS s) else s

/-- The second statement of `NormalizePath`: add a leading slash if
missing. -/
def addLeadingSlash (p : List Char) : List Char :=
  if startsWith '/' p then p else '/' :: p

/-- The third statement of `NormalizePath`: remove one trailing slash
unless the path is exactly `"/"`. -/
def dropTrailingSlash (p : List Char) : List Char :=
  if p ≠ ['/'] ∧ endsWith '/' p then trimSuffixChar '/' p else p

/-- Go `RouteUtils.NormalizePath`: empty becomes `"/"`; add a leading
slash if missing; remove one trailing slash unless the path is `"/"`;
then collapse `"//"` runs until none remain. -/
def normalizePath (path : List Char) : List Char :=
  if path = [] then ['/']
  else
    let q := dropTrailingSlash (addLeadingSlash path)
    collapseFuel q.length q

/-- The `for i, part := range patternParts` loop of
`RouteUtils.MatchPath`; the two lists have equal length at every call
site (the caller checks it), so the one-sided case is unreachable and
its value (`true`, the loop falling off the end) is immaterial. -/
def matchParts : List (List Char) → List (List Char) → Bool
  | [], _ => true
  | part :: ps, q :: qs =>
    if startsWith ':' part then
      if q = [] then false else matchParts ps qs
    else if startsWith '*' part then true
    else if part = q then matchParts ps qs
    else false
  | _ :: _, [] => true

/-- Go `RouteUtils.MatchPath`: equal strings match; otherwise split both
on `'/'`, require equal segment counts, then compare segmentwise with
`:param` matching any non-empty segment and `*wild` ending the
comparison successfully. -/
def matchPath (pattern path : List Char) : Bool :=
  if pattern = path then true
  else
    let patternParts := goSplit '/' pattern
    let pathParts := goSplit '/' path
    if patternParts.length ≠ pathParts.length then false
    else matchParts patternParts pathParts

/-- The `for i, part := range patternParts` loop of
`RouteUtils.ExtractParams`: `:name` binds the segment at the same
index, `*name` binds the `'/'`-join of the remaining path segments and
breaks; as in `matchParts` the one-sided case is unreachable. -/
def extractLoop : List (List Char) → List (List Char) → List (List Char × List Char)
  | [], _ => []
  | part :: ps, q :: qs =>
    if startsWith ':' part then (part.tail, q) :: extractLoop ps qs
    else if startsWith '*' part then [(part.tail, goJoin '/' (q :: qs))]
    else extractLoop ps qs
  | _ :: _, [] => []

/-- Go `RouteUtils.ExtractParams`: empty map unless the pattern and path
have the same number of `'/'`-separated segments; otherwise run the
binding loop. -/
def extractParams (pattern path : List Char) : List (List Char × List Char) :=
  let patternParts := goSplit '/' pattern
  let pathParts := goSplit '/' path
  if patternParts.length ≠ pathParts.length then []
  else extractLoop patternParts pathParts

/-! ## Concrete objects used by witnesses and counterexamples -/

/-- A handler that writes status 299 and body `"custom"` — stands for a
user-installed custom not-found handler. -/
def customNF : HandlerFun :=
  fun c => ({ c with writer := (write (writeHeader c.writer 299) "custom").1 }, none)

/-- A plain route handler that writes status 200 and body `"ok"`. -/
def okHandler : HandlerFun :=
  fun c => ({ c with writer := (write (writeHeader c.writer 200) "ok").1 }, none)

/-- A fresh per-request context: no params, fresh writer. -/
def freshCtx : Ctx := { params := [], writer := newWriter }

/-- An empty dispatch router. -/
def emptyRouterD : RouterDisp :=
  { trees := [], notFoundHandler := none, methodNotAllowedHandler := none }

/-- A tree (lookup function) that serves exactly the path `"/users"`
with `okHandler` and no parameters. -/
def usersTree : TreeFn :=
  fun path => if path = "/users" then (some okHandler, none) else (none, none)

/-- A dispatch router with `usersTree` registered under `GET`. -/
def demoRouterD : RouterDisp :=
  { trees := [("GET", usersTree)], notFoundHandler := none,
    methodNotAllowedHandler := none }

/-- Demo middleware over trace contexts: records `1` before `next` and
`10` after. -/
def mwA : Mw (List Nat) := ⟨fun t => t ++ [1], true, fun t => t ++ [10]⟩

/-- Demo middleware over trace contexts: records `2` before `next` and
`20` after. -/
def mwB : Mw (List Nat) := ⟨fun t => t ++ [2], true, fun t => t ++ [20]⟩

/-- Demo terminal handler over trace contexts: records `0`. -/
def termH : List Nat → List Nat := fun t => t ++ [0]

/-- A demo handler used in registration examples. -/
def hDemo : HandlerFun := fun c => (c, none)

/-! ## Theorems -/

/-- Unfolding one stage of `presComp`. -/
lemma presComp_cons {α : Type} (m : Mw α) (mws : List (Mw α)) (c : α) :
    presComp (m :: mws) c = presComp mws (m.pre c) := rfl

/-- Claim C5: the composed handler built by the right fold runs the
first middleware first; a stage that calls `ctx.next()` hands control to
the fold of the remaining stages (so `mᵢ` hands to `mᵢ₊₁`, and the last
stage's `next` is the terminal handler); when every stage calls `next`,
all pre-`next` work happens in order before the terminal handler and all
post-`next` work after it in reverse order; a stage that skips `next`
cuts the rest of the chain off. -/
theorem middleware_chain_next_order :
    (∀ (α : Type) (mws : List (Mw α)) (h : α → α) (c : α),
      (∀ m ∈ mws, m.callsNext = true) →
      build mws h c = postsComp mws (h (presComp mws c))) ∧
    (∀ (α : Type) (m : Mw α) (rest : List (Mw α)) (h : α → α) (c : α),
      build (m :: rest) h c =
        m.post (if m.callsNext then build rest h (m.pre c) else m.pre c)) ∧
    (∀ (α : Type) (m : Mw α) (rest : List (Mw α)) (h : α → α) (c : α),
      m.callsNext = false → build (m :: rest) h c = m.post (m.pre c)) := by
  refine ⟨?_, ?_, ?_⟩
  · intro α mws
    induction mws with
    | nil => intro h c _; rfl
    | cons m rest ih =>
      intro h c hall
      have hm : m.callsNext = true := hall m (by simp)
      have hrest : ∀ m2 ∈ rest, m2.callsNext = true :=
        fun m2 hm2 => hall m2 (List.mem_cons_of_mem _ hm2)
      simp only [build, runMw, hm, if_true, postsComp, presComp_cons]
      exact congrArg m.post (ih h (m.pre c) hrest)
  · intro α m rest h c
    rfl
  · intro α m rest h c hm
    simp [build, runMw, hm]

/-- Closed instance of C5: the two demo stages both call `next`, and
running the built chain indeed does the pre-work in order, then the
terminal handler, then the post-work in reverse. -/
theorem middleware_chain_next_order_witness :
    (∀ m ∈ [mwA, mwB], m.callsNext = true) ∧
    build [mwA, mwB] termH [] =
      postsComp [mwA, mwB] (termH (presComp [mwA, mwB] ([] : List Nat))) :=
  ⟨by decide,
   middleware_chain_next_order.1 (List Nat) [mwA, mwB] termH [] (by decide)⟩

/-- Claim C6: middleware composition is associative — folding a split
list in two steps is pointwise equal to folding the whole list. -/
theorem middleware_chain_assoc :
    ∀ (α : Type) (l1 l2 : List (Mw α)) (h : α → α) (c : α),
      build (l1 ++ l2) h c = build l1 (build l2 h) c := by
  intro α l1 l2 h c
  induction l1 generalizing c with
  | nil => rfl
  | cons m rest ih =>
    by_cases hm : m.callsNext <;> simp [build, runMw, hm, ih]

/-- Claim C7: registering through a group forwards to the router with
the concatenated path and the group middleware prepended, and a
sub-group concatenates prefix and middleware while sharing the same
router — the group constructor itself never touches the routing
state. -/
theorem group_registration_equiv :
    ∀ (g : Group) (method path : String) (h : Option HandlerFun)
      (mw : List HandlerFun) (sub : String) (mw2 : List HandlerFun),
      groupHandle g method path h mw =
        handle g.router method (g.pfx ++ path) h (g.middleware ++ mw) ∧
      (groupGroup g sub mw2).router = g.router ∧
      (groupGroup g sub mw2).pfx = g.pfx ++ sub ∧
      (groupGroup g sub mw2).middleware = g.middleware ++ mw2 :=
  fun _ _ _ _ _ _ _ => ⟨rfl, rfl, rfl, rfl⟩

/-- Claim C8: `Handle` rejects an empty method, a path not beginning
with a slash, and a nil handler — and accepts (recording the insertion)
whenever the method is non-empty, the path begins with a slash and the
handler is non-nil. -/
theorem handle_panic_conditions :
    (∀ (r : RouterReg) (path : String) (h : Option HandlerFun)
        (mw : List HandlerFun),
      handle r ("") path h mw = .error .emptyMethod) ∧
    (∀ (r : RouterReg) (method path : String) (h : Option HandlerFun)
        (mw : List HandlerFun),
      method ≠ ("") → path.data.head? ≠ some '/' →
      handle r method path h mw = .error .badPath) ∧
    (∀ (r : RouterReg) (method path : String) (mw : List HandlerFun),
      method ≠ ("") → path.data.head? = some '/' →
      handle r method path none mw = .error .nilHandler) ∧
    (∀ (r : RouterReg) (method path : String) (h : HandlerFun)
        (mw : List HandlerFun),
      method ≠ ("") → path.data.head? = some '/' →
      handle r method path (some h) mw =
        .ok { routes := r.routes ++ [(method, path, h, mw)] }) := by
  have hlen : ∀ (path : String), path.data.head? = some '/' →
      ¬ path.length = 0 := by
    intro path hp hl
    cases hd : path.data with
    | nil => rw [hd] at hp; cases hp
    | cons a t =>
      have : path.length = t.length + 1 := by simp [String.length, hd]
      omega
  refine ⟨?_, ?_, ?_, ?_⟩
  · intro r path h mw
    simp [handle]
  · intro r method path h mw hm hp
    simp only [handle]
    rw [if_neg hm, if_pos (Or.inr hp)]
  · intro r method path mw hm hp
    simp [handle, hm, hlen path hp, hp]
  · intro r method path h mw hm hp
    simp [handle, hm, hlen path hp, hp]

/-- Closed instance of C8: a well-formed registration is accepted and
recorded. -/
theorem handle_panic_conditions_witness :
    ("GET" : String) ≠ ("") ∧ ("/users" : String).data.head? = some '/' ∧
    handle ⟨[]⟩ ("GET") ("/users") (some hDemo) [] =
      .ok { routes := [(("GET"), ("/users"), hDemo, [])] } :=
  ⟨by decide, by decide,
   handle_panic_conditions.2.2.2 ⟨[]⟩ ("GET") ("/users") hDemo []
     (by decide) (by decide)⟩

/-- Claim C4, refuted at a concrete input: after `WriteHeader(201)` a
second call `WriteHeader(404)` is not ignored — the recorded status
becomes 404 and the second call is forwarded to the underlying
writer. -/
theorem writeHeader_not_idempotent_counterexample :
    (writeHeader (writeHeader newWriter 201) 404).statusCode = 404 ∧
    (writeHeader (writeHeader newWriter 201) 404).statusCode ≠ 201 ∧
    (writeHeader (writeHeader newWriter 201) 404).sent =
      [.header 201, .header 404] := by decide

/-- Claim C4 as amended: `WriteHeader` is ignored only once the
`written` flag is set, and that flag is set by the first body `Write`,
not by `WriteHeader`; before any `Write`, a later `WriteHeader`
overwrites the status; `Size()` accumulates the bytes written. -/
theorem writer_capture_amended :
    (∀ (w : Writer) (data : String), ((write w data).1).written = true) ∧
    (∀ (w : Writer) (code : Nat), w.written = true → writeHeader w code = w) ∧
    (∀ (w : Writer) (data : String) (code : Nat),
      writeHeader ((write w data).1) code = (write w data).1) ∧
    (∀ (w : Writer) (data : String),
      ((write w data).1).size = w.size + data.length) ∧
    (∀ (w : Writer) (code : Nat), w.written = false →
      (writeHeader w code).statusCode = code) := by
  refine ⟨?_, ?_, ?_, ?_, ?_⟩
  · intro w data
    by_cases hw : w.written <;> simp [write, hw]
  · intro w code hw
    simp [writeHeader, hw]
  · intro w data code
    have hwr : ((write w data).1).written = true := by
      by_cases hw : w.written <;> simp [write, hw]
    simp [writeHeader, hwr]
  · intro w data
    by_cases hw : w.written <;> simp [write, hw]
  · intro w code hw
    simp [writeHeader, hw]

/-- Closed instance of the amended C4: a fresh writer records the code
passed to its first `WriteHeader`. -/
theorem writer_capture_amended_witness :
    newWriter.written = false ∧ (writeHeader newWriter 418).statusCode = 418 :=
  ⟨by decide, writer_capture_amended.2.2.2.2 newWriter 418 (by decide)⟩

/-- Claim C1: dispatch invokes the matched handler on the context with
the extracted parameters bound (and, with no error handler installed,
returns exactly the handler's resulting context); when the request's
own method has no match but some other method's tree matches the path,
a fresh writer receives status 405 and body `"Method Not Allowed"`;
when no tree matches at all, it receives 404 and `"Not Found"`. -/
theorem dispatch_handler_404_405 :
    (∀ (r : RouterDisp) (method path : String)
        (errH : Option (Ctx → String → Ctx)) (c : Ctx)
        (root : TreeFn) (hf : HandlerFun),
      treesFind r.trees method = some root → (root path).1 = some hf →
      serveHTTP r method path errH c = serveFound hf (root path).2 errH c) ∧
    (∀ (hf : HandlerFun) (ps : List (String × String)) (c : Ctx),
      serveFound hf (some ps) none c = (hf (setParams c ps)).1) ∧
    (∀ (r : RouterDisp) (method path : String)
        (errH : Option (Ctx → String → Ctx)) (c : Ctx),
      (∀ root, treesFind r.trees method = some root → (root path).1 = none) →
      (∃ e ∈ r.trees, e.1 ≠ method ∧ ((e.2) path).1.isSome = true) →
      c.writer = newWriter →
      (serveHTTP r method path errH c).writer.statusCode = 405 ∧
        dataWrites (serveHTTP r method path errH c).writer =
          ["Method Not Allowed"]) ∧
    (∀ (r : RouterDisp) (method path : String)
        (errH : Option (Ctx → String → Ctx)) (c : Ctx),
      (∀ root, treesFind r.trees method = some root → (root path).1 = none) →
      (∀ e ∈ r.trees, e.1 ≠ method → ((e.2) path).1 = none) →
      c.writer = newWriter →
      (serveHTTP r method path errH c).writer.statusCode = 404 ∧
        dataWrites (serveHTTP r method path errH c).writer =
          ["Not Found"]) := by
  refine ⟨?_, ?_, ?_, ?_⟩
  · intro r method path errH c root hf h1 h2
    simp [serveHTTP, h1, h2]
  · intro hf ps c
    cases he : (hf (setParams c ps)).2 <;> simp [serveFound, he]
  · intro r method path errH c h1 h2 hw
    have hmiss : serveHTTP r method path errH c = serveMiss r method path c := by
      cases hfind : treesFind r.trees method with
      | none => simp [serveHTTP, hfind]
      | some root => simp [serveHTTP, hfind, h1 root hfind]
    have hany : (r.trees.any fun e => e.1 != method && ((e.2) path).1.isSome) = true := by
      rcases h2 with ⟨e, he, hne, hsome⟩
      refine List.any_eq_true.mpr ⟨e, he, ?_⟩
      simp [hne, hsome]
    rw [hmiss]
    simp only [serveMiss, hany, if_true]
    rw [show write405 c = { c with writer := (write (writeHeader c.writer 405)
      ("Method Not Allowed")).1 } from rfl, hw]
    exact ⟨rfl, rfl⟩
  · intro r method path errH c h1 h2 hw
    have hmiss : serveHTTP r method path errH c = serveMiss r method path c := by
      cases hfind : treesFind r.trees method with
      | none => simp [serveHTTP, hfind]
      | some root => simp [serveHTTP, hfind, h1 root hfind]
    have hany : (r.trees.any fun e => e.1 != method && ((e.2) path).1.isSome) = false := by
      rw [List.any_eq_false]
      intro e he
      by_cases hme : e.1 = method
      · simp [hme]
      · simp [hme, h2 e he hme]
    rw [hmiss]
    simp only [serveMiss, hany, Bool.false_eq_true, if_false]
    rw [show write404 c = { c with writer := (write (writeHeader c.writer 404)
      ("Not Found")).1 } from rfl, hw]
    exact ⟨rfl, rfl⟩

/-- Closed instance of C1: with only a `GET /users` route registered, a
`POST /users` request gets the 405 response. -/
theorem dispatch_handler_404_405_witness :
    (serveHTTP demoRouterD ("POST") ("/users") none freshCtx).writer.statusCode = 405 ∧
    dataWrites (serveHTTP demoRouterD ("POST") ("/users") none freshCtx).writer =
      ["Method Not Allowed"] :=
  dispatch_handler_404_405.2.2.1 demoRouterD ("POST") ("/users") none freshCtx
    (fun root hroot => Option.noConfusion hroot)
    ⟨("GET", usersTree), by simp [demoRouterD], by decide, by decide⟩
    rfl

/-- Claim C3 as amended: `SetNotFoundHandler` and
`SetMethodNotAllowedHandler` record the given handler in the router's
fields, but `ServeHTTP` never consults those fields — dispatch is
unchanged by installing them. -/
theorem custom_handlers_recorded_but_unused :
    ∀ (r : RouterDisp) (h1 h2 : HandlerFun) (method path : String)
      (errH : Option (Ctx → String → Ctx)) (c : Ctx),
      serveHTTP (setNotFoundHandler r h1) method path errH c =
        serveHTTP r method path errH c ∧
      serveHTTP (setMethodNotAllowedHandler r h2) method path errH c =
        serveHTTP r method path errH c ∧
      (setNotFoundHandler r h1).notFoundHandler = some h1 ∧
      (setMethodNotAllowedHandler r h2).methodNotAllowedHandler = some h2 :=
  fun _ _ _ _ _ _ _ => ⟨rfl, rfl, rfl, rfl⟩

/-- Claim C3, refuted at a concrete input: after installing a custom
handler (which would write status 299 and body `"custom"`) via
`SetNotFoundHandler`, dispatching an unmatched path still writes the
default plain-text 404 — the custom handler is not invoked; likewise a
custom handler installed via `SetMethodNotAllowedHandler` is not
invoked on a method miss, which still writes the default 405. -/
theorem custom_handlers_ignored_counterexample :
    (serveHTTP (setNotFoundHandler emptyRouterD customNF)
        ("GET") ("/missing") none freshCtx).writer.statusCode = 404 ∧
    dataWrites (serveHTTP (setNotFoundHandler emptyRouterD customNF)
        ("GET") ("/missing") none freshCtx).writer = ["Not Found"] ∧
    (serveHTTP (setMethodNotAllowedHandler demoRouterD customNF)
        ("POST") ("/users") none freshCtx).writer.statusCode = 405 ∧
    dataWrites (serveHTTP (setMethodNotAllowedHandler demoRouterD customNF)
        ("POST") ("/users") none freshCtx).writer = ["Method Not Allowed"] ∧
    (404 : Nat) ≠ 299 := by
  refine ⟨?_, ?_, ?_, ?_, by decide⟩ <;> rfl

/-- Replacing `"//"` by `"/"` never lengthens the string. -/
lemma replaceDS_length_le : ∀ s : List Char, (replaceDS s).length ≤ s.length := by
  intro s
  induction s using replaceDS.induct with
  | case1 => simp [replaceDS]
  | case2 c => simp [replaceDS]
  | case3 a b rest hab ih =>
    simp only [replaceDS, if_pos hab, List.length_cons]
    omega
  | case4 a b rest hab ih =>
    simp only [List.length_cons] at ih
    simp only [replaceDS, if_neg hab, List.length_cons]
    omega

/-- Replacing `"//"` by `"/"` strictly shortens a string that contains
`"//"`, so the `NormalizePath` collapse loop always terminates within
`length` iterations. -/
lemma replaceDS_length_lt :
    ∀ s : List Char, containsDS s = true → (replaceDS s).length < s.length := by
  intro s
  induction s using replaceDS.induct with
  | case1 => simp [containsDS]
  | case2 c => simp [containsDS]
  | case3 a b rest hab ih =>
    intro _
    have := replaceDS_length_le rest
    simp only [replaceDS, if_pos hab, List.length_cons]
    omega
  | case4 a b rest hab ih =>
    intro h
    have h2 : containsDS (b :: rest) = true := by
      simp only [containsDS, Bool.or_eq_true] at h
      rcases h with h | h
      · exact absurd h (by simpa using hab)
      · exact h
    have h3 := ih h2
    simp only [List.length_cons] at h3
    simp only [replaceDS, if_neg hab, List.length_cons]
    omega

/-- Enough fuel drives the collapse loop to its exit condition: no
`"//"` remains. -/
lemma collapseFuel_no_ds :
    ∀ (n : Nat) (s : List Char), s.length ≤ n →
      containsDS (collapseFuel n s) = false := by
  intro n
  induction n with
  | zero =>
    intro s h
    have : s = [] := List.eq_nil_of_length_eq_zero (Nat.le_zero.mp h)
    subst this
    simp [collapseFuel, containsDS]
  | succ n ih =>
    intro s h
    by_cases hc : containsDS s = true
    · have hlt := replaceDS_length_lt s hc
      simp only [collapseFuel, hc, if_true]
      exact ih _ (by omega)
    · simp only [collapseFuel, hc, if_false]
      simpa using hc

/-- The collapse loop leaves a string without `"//"` unchanged. -/
lemma collapseFuel_eq_self :
    ∀ (n : Nat) (s : List Char), containsDS s = false →
      collapseFuel n s = s := by
  intro n s h
  cases n <;> simp [collapseFuel, h]

/-- The replacement keeps a leading slash. -/
lemma replaceDS_startsWith :
    ∀ s : List Char, startsWith '/' s = true →
      startsWith '/' (replaceDS s) = true := by
  intro s h
  match s with
  | [] => simp [startsWith] at h
  | [c] => simpa [replaceDS] using h
  | a :: b :: rest =>
    have ha : a = '/' := by simpa [startsWith] using h
    subst ha
    by_cases hb : b = '/'
    · subst hb
      simp [replaceDS, startsWith]
    · simp [replaceDS, hb, startsWith]

/-- The collapse loop keeps a leading slash. -/
lemma collapseFuel_startsWith :
    ∀ (n : Nat) (s : List Char), startsWith '/' s = true →
      startsWith '/' (collapseFuel n s) = true := by
  intro n
  induction n with
  | zero => intro s h; simpa [collapseFuel] using h
  | succ n ih =>
    intro s h
    by_cases hc : containsDS s = true
    · simp only [collapseFuel, hc, if_true]
      exact ih _ (replaceDS_startsWith s h)
    · simpa [collapseFuel, hc] using h

/-- Containing `"//"` is preserved by appending on the right. -/
lemma containsDS_append_left :
    ∀ (s t : List Char), containsDS s = true → containsDS (s ++ t) = true := by
  intro s t
  induction s using containsDS.induct with
  | case1 => simp [containsDS]
  | case2 c => simp [containsDS]
  | case3 a b rest ih =>
    intro h
    simp only [containsDS, Bool.or_eq_true] at h
    rcases h with h | h
    · simp [containsDS, h]
    · simp only [List.cons_append, containsDS, Bool.or_eq_true]
      exact Or.inr (by simpa using ih h)

/-- A string ending in `"//"` contains `"//"`. -/
lemma containsDS_append_ds :
    ∀ s : List Char, containsDS (s ++ ['/', '/']) = true := by
  intro s
  induction s using containsDS.induct with
  | case1 => decide
  | case2 c => simp [containsDS]
  | case3 a b rest ih =>
    simp only [List.cons_append, containsDS, Bool.or_eq_true]
    exact Or.inr (by simpa using ih)

/-- A string without `"//"` still lacks `"//"` after dropping its last
character. -/
lemma containsDS_dropLast (s : List Char) (h : containsDS s = false) :
    containsDS s.dropLast = false := by
  by_contra hc
  have hc2 : containsDS s.dropLast = true := by simpa using hc
  rcases eq_or_ne s [] with rfl | hne
  · simp [containsDS] at hc2
  · have h3 := containsDS_append_left s.dropLast [s.getLast hne] hc2
    rw [List.dropLast_append_getLast hne] at h3
    rw [h3] at h
    cases h

/-- A string ending in a slash is its `dropLast` plus that slash. -/
lemma eq_dropLast_append_of_endsWith (s : List Char)
    (h : endsWith '/' s = true) : s = s.dropLast ++ ['/'] := by
  have hne : s ≠ [] := by
    rintro rfl
    simp [endsWith] at h
  have hg : s.getLast? = some (s.getLast hne) := List.getLast?_eq_getLast s hne
  have hlast : s.getLast hne = '/' := by
    rw [endsWith, hg] at h
    exact of_decide_eq_true h
  rw [← hlast]
  exact (List.dropLast_append_getLast hne).symm

/-- `addLeadingSlash` output always starts with a slash. -/
lemma addLeadingSlash_startsWith (p : List Char) :
    startsWith '/' (addLeadingSlash p) = true := by
  unfold addLeadingSlash
  split
  · assumption
  · simp [startsWith]

/-- Dropping the last character of a multi-character string keeps its
leading slash. -/
lemma startsWith_dropLast (s : List Char) (h1 : startsWith '/' s = true)
    (h2 : s ≠ ['/']) : startsWith '/' s.dropLast = true := by
  match s with
  | [] => simp [startsWith] at h1
  | [c] =>
    have hc : c = '/' := by simpa [startsWith] using h1
    subst hc
    exact absurd rfl h2
  | a :: b :: rest =>
    have ha : a = '/' := by simpa [startsWith] using h1
    subst ha
    have hd : ('/' :: b :: rest).dropLast = '/' :: (b :: rest).dropLast := rfl
    rw [hd]
    simp [startsWith]

/-- `dropTrailingSlash` keeps the leading slash. -/
lemma dropTrailingSlash_startsWith (p : List Char)
    (h : startsWith '/' p = true) :
    startsWith '/' (dropTrailingSlash p) = true := by
  unfold dropTrailingSlash
  split
  · rename_i hc
    rw [trimSuffixChar, if_pos hc.2]
    exact startsWith_dropLast p h hc.1
  · exact h

/-- `dropTrailingSlash` preserves the absence of `"//"`. -/
lemma dropTrailingSlash_no_ds (p : List Char) (h : containsDS p = false) :
    containsDS (dropTrailingSlash p) = false := by
  unfold dropTrailingSlash
  split
  · rename_i hc
    rw [trimSuffixChar, if_pos hc.2]
    exact containsDS_dropLast p h
  · exact h

/-- On a string that already starts with a slash and has no `"//"`,
`NormalizePath` reduces to the trailing-slash step alone. -/
lemma normalizePath_of_invariant (q : List Char)
    (h1 : startsWith '/' q = true) (h2 : containsDS q = false) :
    normalizePath q = dropTrailingSlash q := by
  have hne : q ≠ [] := by
    rintro rfl
    simp [startsWith] at h1
  have ha : addLeadingSlash q = q := by
    unfold addLeadingSlash
    rw [if_pos h1]
  simp only [normalizePath, if_neg hne, ha]
  exact collapseFuel_eq_self _ _ (dropTrailingSlash_no_ds q h2)

/-- Every `NormalizePath` result starts with a slash. -/
lemma normalizePath_startsWith (p : List Char) :
    startsWith '/' (normalizePath p) = true := by
  by_cases hp : p = []
  · subst hp
    simp [normalizePath, startsWith]
  · have h1 := addLeadingSlash_startsWith p
    have h2 := dropTrailingSlash_startsWith (addLeadingSlash p) h1
    simp only [normalizePath, if_neg hp]
    exact collapseFuel_startsWith _ _ h2

/-- Every `NormalizePath` result is free of `"//"`. -/
lemma normalizePath_no_ds (p : List Char) :
    containsDS (normalizePath p) = false := by
  by_cases hp : p = []
  · subst hp
    simp [normalizePath, containsDS]
  · simp only [normalizePath, if_neg hp]
    exact collapseFuel_no_ds _ _ (Nat.le_refl _)

/-- On a `"//"`-free string, the trailing-slash step produces either
the root path or a string not ending in a slash. -/
lemma dropTrailingSlash_ends_good (q : List Char)
    (h2 : containsDS q = false) :
    dropTrailingSlash q = ['/'] ∨
      endsWith '/' (dropTrailingSlash q) = false := by
  unfold dropTrailingSlash
  split
  · rename_i hc
    rw [trimSuffixChar, if_pos hc.2]
    right
    by_contra he2b
    have he2 : endsWith '/' q.dropLast = true := by simpa using he2b
    have e1 : q = q.dropLast ++ ['/'] := eq_dropLast_append_of_endsWith q hc.2
    have e2 : q.dropLast = q.dropLast.dropLast ++ ['/'] :=
      eq_dropLast_append_of_endsWith q.dropLast he2
    have e3 : q = q.dropLast.dropLast ++ ['/', '/'] := by
      conv_lhs => rw [e1, e2]
      rw [List.append_assoc]
      rfl
    have h4 := containsDS_append_ds q.dropLast.dropLast
    rw [← e3] at h4
    rw [h4] at h2
    cases h2
  · rename_i hc
    by_cases hq : q = ['/']
    · exact Or.inl hq
    · right
      by_contra heb
      exact hc ⟨hq, by simpa using heb⟩

/-- A slash-leading, `"//"`-free string that is the root or does not
end in a slash is a fixed point of `NormalizePath`. -/
lemma normalizePath_fix (q : List Char)
    (h1 : startsWith '/' q = true) (h2 : containsDS q = false)
    (h3 : q = ['/'] ∨ endsWith '/' q = false) : normalizePath q = q := by
  rw [normalizePath_of_invariant q h1 h2]
  unfold dropTrailingSlash
  rw [if_neg]
  rintro ⟨hq, he⟩
  rcases h3 with h3 | h3
  · exact hq h3
  · rw [h3] at he
    cases he

/-- Claim C10, refuted at a concrete input: `NormalizePath` strips only
one trailing slash before collapsing `"//"`, so `"/a//"` normalizes to
`"/a/"` — which still ends in a slash and is not `"/"` — and a second
application changes it again, so the function is not idempotent. -/
theorem normalizePath_counterexample :
    normalizePath (goStr ("/a//")) = goStr ("/a/") ∧
    endsWith '/' (normalizePath (goStr ("/a//"))) = true ∧
    normalizePath (goStr ("/a//")) ≠ goStr ("/") ∧
    normalizePath (normalizePath (goStr ("/a//"))) ≠
      normalizePath (goStr ("/a//")) := by decide

/-- Claim C10 as amended: every `NormalizePath` result begins with a
slash and contains no `"//"`; the no-trailing-slash guarantee and
idempotence hold from the second application on: the double application
is the root path or does not end in a slash, and is a fixed point of
`NormalizePath`. -/
theorem normalizePath_amended (p : List Char) :
    startsWith '/' (normalizePath p) = true ∧
    containsDS (normalizePath p) = false ∧
    (normalizePath (normalizePath p) = goStr ("/") ∨
      endsWith '/' (normalizePath (normalizePath p)) = false) ∧
    normalizePath (normalizePath (normalizePath p)) =
      normalizePath (normalizePath p) := by
  have h1 := normalizePath_startsWith p
  have h2 := normalizePath_no_ds p
  have hgood : normalizePath (normalizePath p) = ['/'] ∨
      endsWith '/' (normalizePath (normalizePath p)) = false := by
    rw [normalizePath_of_invariant (normalizePath p) h1 h2]
    exact dropTrailingSlash_ends_good (normalizePath p) h2
  refine ⟨h1, h2, hgood, ?_⟩
  exact normalizePath_fix (normalizePath (normalizePath p))
    (normalizePath_startsWith (normalizePath p))
    (normalizePath_no_ds (normalizePath p)) hgood

/-- Claim C9, refuted at a concrete input: the path
`"/static/a/b.css"` is the catch-all pattern's static part
`"/static/"` followed by the non-empty remainder `"a/b.css"`, yet
`MatchPath` rejects it, because the segment-count check runs before the
`'*'` branch. -/
theorem matchPath_catchall_counterexample :
    goStr ("/static/a/b.css") = goStr ("/static/") ++ goStr ("a/b.css") ∧
    goStr ("a/b.css") ≠ [] ∧
    matchPath (goStr ("/static/*filepath")) (goStr ("/static/a/b.css")) =
      false := by decide

/-- Claim C9 as amended: a `MatchPath` match (between distinct strings)
requires pattern and path to split into the same number of
`'/'`-separated segments; within an equal-count pair the `'*'` segment
accepts everything from its position on, so a catch-all matches exactly
the paths with as many segments as the pattern. -/
theorem matchPath_catchall_amended :
    (∀ pattern path : List Char, matchPath pattern path = true →
      pattern = path ∨
        (goSplit '/' pattern).length = (goSplit '/' path).length) ∧
    (∀ (part : List Char) (ps qs : List (List Char)),
      startsWith ':' part = false → startsWith '*' part = true →
      matchParts (part :: ps) qs = true) ∧
    matchPath (goStr ("/static/*filepath")) (goStr ("/static/a")) = true ∧
    matchPath (goStr ("/static/*filepath")) (goStr ("/static/a/b.css")) =
      false := by
  refine ⟨?_, ?_, by decide, by decide⟩
  · intro pattern path h
    by_cases he : pattern = path
    · exact Or.inl he
    · right
      by_cases hl : (goSplit '/' pattern).length = (goSplit '/' path).length
      · exact hl
      · rw [matchPath, if_neg he] at h
        simp only [hl, if_true, ne_eq, not_false_iff] at h
        cases h
  · intro part ps qs h1 h2
    cases qs with
    | nil => rfl
    | cons q tail => simp [matchParts, h1, h2]

/-- Closed instance of the amended C9: `"/a/:x"` matches `"/a/b"` and
the two indeed split into equally many segments. -/
theorem matchPath_catchall_amended_witness :
    goStr ("/a/:x") = goStr ("/a/b") ∨
      (goSplit '/' (goStr ("/a/:x"))).length =
        (goSplit '/' (goStr ("/a/b"))).length :=
  matchPath_catchall_amended.1 (goStr ("/a/:x")) (goStr ("/a/b")) (by decide)

/-- Claim C2, refuted at a concrete input: for the catch-all pattern
`"/static/*filepath"` and the path `"/static/a/b.css"`,
`ExtractParams` returns the empty map — not
`{ filepath: "/a/b.css" }` — because the segment counts differ. -/
theorem extractParams_catchall_counterexample :
    extractParams (goStr ("/static/*filepath")) (goStr ("/static/a/b.css")) =
      [] ∧
    ([] : List (List Char × List Char)) ≠
      [(goStr ("filepath"), goStr ("/a/b.css"))] := by decide

/-- Claim C2 as amended: `ExtractParams` yields the empty map whenever
the pattern and path have different numbers of `'/'`-separated
segments (so a catch-all never sees extra segments); when the counts
are equal, the `'*'` segment binds its name to the `'/'`-join of the
remaining path segments, which carries no leading slash. -/
theorem extractParams_catchall_amended :
    (∀ pattern path : List Char,
      (goSplit '/' pattern).length ≠ (goSplit '/' path).length →
      extractParams pattern path = []) ∧
    (∀ (part q : List Char) (ps qs : List (List Char)),
      startsWith ':' part = false → startsWith '*' part = true →
      extractLoop (part :: ps) (q :: qs) =
        [(part.tail, goJoin '/' (q :: qs))]) ∧
    extractParams (goStr ("/static/*filepath")) (goStr ("/static/a")) =
      [(goStr ("filepath"), goStr ("a"))] ∧
    extractParams (goStr ("/static/*filepath")) (goStr ("/static/a/b.css")) =
      [] := by
  refine ⟨?_, ?_, by decide, by decide⟩
  · intro pattern path h
    simp [extractParams, h]
  · intro part q ps qs h1 h2
    simp [extractLoop, h1, h2]

/-- Closed instance of the amended C2: unequal segment counts yield the
empty parameter map. -/
theorem extractParams_catchall_amended_witness :
    extractParams (goStr ("/static/*filepath")) (goStr ("/static/x/y")) =
      [] :=
  extractParams_catchall_amended.1 (goStr ("/static/*filepath"))
    (goStr ("/static/x/y")) (by decide)

end GoWolf
